import Mathlib

/-!
Verification of the bulk tesis acquisition / embedding pipeline
(`monitor_judicial`).  The Python modules under `src/tesis_api/` are
shallowly embedded below: text is modelled as `List Char`, machine
floats used only for counters/percentages as `ℚ`, wall-clock time as
`ℚ` seconds, fallible code as `Except`/`Option` values, and the
stateful objects (`CheckpointManager`, `RateLimiter`, filesystem
operations of `save_checkpoint`) as explicit state-passing functions
or small step relations.  Every definition follows the corresponding
Python function line by line; the theorems at the end settle the
specification claims.
-/

namespace MonitorJudicial

/-! ## checkpoint_manager.py — `CheckpointManager`

State dictionary of `CheckpointManager` (`load_checkpoint`, lines 49-59
give the fresh value).  Timestamps are uninterpreted strings supplied by the
caller (`datetime.now().isoformat()` in Python). -/

structure FailedEntry where
  id : Int
  error : String
  timestamp : String
  deriving Repr, DecidableEq

structure EmbCheckpointState where
  processed_tesis : List Int
  failed_tesis : List FailedEntry
  last_batch_id : Option Int
  total_chunks : Nat
  total_tokens : Nat
  actual_cost : ℚ
  start_time : Option String
  last_update : Option String
  version : String
  deriving Repr, DecidableEq

/-- The fresh checkpoint dictionary returned by
`CheckpointManager.load_checkpoint` when the file is missing or
unparseable (checkpoint_manager.py lines 49-59). -/
def freshCheckpoint : EmbCheckpointState :=
  { processed_tesis := []
    failed_tesis := []
    last_batch_id := none
    total_chunks := 0
    total_tokens := 0
    actual_cost := 0
    start_time := none
    last_update := none
    version := "1.0" }

/-- Python `CheckpointManager.load_checkpoint` (lines 31-59).  The checkpoint
file on disk is modelled as `none` (missing) or `some content`; JSON
parsing is an arbitrary function `parse` returning `none` on any
exception (`json.load` failure).  The Python code returns the parsed
state on success and falls back to the fresh state in the other two
cases, catching the parse exception. -/
def load_checkpoint (file : Option (List Char))
    (parse : List Char → Option EmbCheckpointState) : EmbCheckpointState :=
  match file with
  | none => freshCheckpoint
  | some content =>
    match parse content with
    | some st => st
    | none => freshCheckpoint

/-- Python `CheckpointManager.mark_processed` (lines 77-95): appends the id to
`processed_tesis` unconditionally, accumulates chunk/token counters,
recomputes `actual_cost` as `total_tokens / 1_000_000 * 0.020`, and sets
`start_time` only if unset. -/
def mark_processed (s : EmbCheckpointState) (tesis_id : Int)
    (chunks tokens : Nat) (now : String) : EmbCheckpointState :=
  let totalTokens := s.total_tokens + tokens
  { s with
    processed_tesis := s.processed_tesis ++ [tesis_id]
    total_chunks := s.total_chunks + chunks
    total_tokens := totalTokens
    actual_cost := ((totalTokens : ℚ) / 1000000) * (20 / 1000)
    start_time := match s.start_time with
      | none => some now
      | some t => some t }

/-- Python `CheckpointManager.mark_failed` (lines 97-109). -/
def mark_failed (s : EmbCheckpointState) (tesis_id : Int) (error : String)
    (now : String) : EmbCheckpointState :=
  { s with failed_tesis := s.failed_tesis ++ [⟨tesis_id, error, now⟩] }

/-- Python `CheckpointManager.is_processed` (lines 111-121). -/
def is_processed (s : EmbCheckpointState) (tesis_id : Int) : Bool :=
  decide (tesis_id ∈ s.processed_tesis)

/-- Python `CheckpointManager.get_processed_count` (lines 123-125). -/
def get_processed_count (s : EmbCheckpointState) : Nat :=
  s.processed_tesis.length

/-- Python `CheckpointManager.get_progress_percentage` (lines 131-143). -/
def get_progress_percentage (s : EmbCheckpointState) (total : Nat) : ℚ :=
  if total = 0 then 0
  else ((get_processed_count s : ℚ) / (total : ℚ)) * 100

/-! ## `save_checkpoint` as filesystem steps

`CheckpointManager.save_checkpoint` (checkpoint_manager.py lines 61-75)
and `Checkpoint.save` (download_all_tesis_to_json.py lines 111-124) both
write the serialized state to `<file>.tmp` and then install it with
`Path.replace` (the POSIX atomic `rename`).  We model the filesystem as
the contents of the two paths and the save as a list of primitive
operations; a crash mid-save is execution of a prefix of that list.
`writeCheckpointDirect` is in the operation vocabulary only so that we
can state that the save never performs it. -/

inductive FsOp where
  /-- Python `open(temp_file, 'w')` truncates the temp path. -/
  | truncTemp
  /-- one OS-level portion of `f.write(...)` on the temp file -/
  | appendTemp (bytes : List Nat)
  /-- Python `temp_file.replace(self.checkpoint_file)` — atomic rename -/
  | renameTempToCheckpoint
  /-- a direct write to the checkpoint path (never used by the code) -/
  | writeCheckpointDirect (bytes : List Nat)
  deriving Repr, DecidableEq

structure FsState where
  checkpoint : Option (List Nat)
  temp : Option (List Nat)
  deriving Repr, DecidableEq

def applyFsOp (s : FsState) : FsOp → FsState
  | .truncTemp => { s with temp := some [] }
  | .appendTemp b => { s with temp := some ((s.temp.getD []) ++ b) }
  | .renameTempToCheckpoint =>
    match s.temp with
    | some c => { checkpoint := some c, temp := none }
    | none => s
  | .writeCheckpointDirect b => { s with checkpoint := some b }

def runFs (s : FsState) (ops : List FsOp) : FsState :=
  ops.foldl applyFsOp s

/-- The operation sequence performed by `save_checkpoint`: truncate the
temp file, write the serialized state (split by the OS into an arbitrary
list of portions `writes`, whose concatenation is the full serialized
state), then atomically rename the temp file over the checkpoint path. -/
def saveCheckpointOps (writes : List (List Nat)) : List FsOp :=
  FsOp.truncTemp :: (writes.map FsOp.appendTemp ++ [FsOp.renameTempToCheckpoint])

/-! ## download_all_tesis_to_json.py — `MassTesisDownloader.download_tesis`

The per-attempt HTTP outcome is modelled by `HttpResp`; the sequence of
outcomes the network would return for successive attempts is a function
`responses : Nat → HttpResp`.  Waits and rate-limiter interactions
performed by the loop are recorded as `DlEvent`s.  Idealization: each
`await` returns and the loop proceeds; real durations are irrelevant to
the claims, only which sleeps/degradations occur. -/

inductive HttpResp where
  | http (code : Nat) (data : Nat)
  | timeout
  | exc (msg : String)
  deriving Repr, DecidableEq

inductive DlResult where
  | success (data : Nat)
  | failure (error : String)
  deriving Repr, DecidableEq

inductive DlEvent where
  /-- Python `self.rate_limiter.reduce_rate(duration=60)` -/
  | reduceRate (duration : Nat)
  /-- Python `await asyncio.sleep(w)` -/
  | sleep (secs : Nat)
  deriving Repr, DecidableEq

/-- The `for attempt in range(retries)` loop of `download_tesis`
(download_all_tesis_to_json.py lines 194-246), one branch per status
branch of the code, consuming the list of remaining values of `attempt`
(`range(retries)` at the top call).  `continue` after a 429 re-enters
the loop with the next value of `attempt`; falling off the loop returns
`'Max retries exceeded'`. -/
def downloadLoop (responses : Nat → HttpResp) (retries : Nat) :
    List Nat → DlResult × List DlEvent
  | [] => (.failure "Max retries exceeded", [])
  | attempt :: rest =>
    match responses attempt with
    | .http code d =>
      if code = 200 then (.success d, [])
      else if code = 429 then
        let r := downloadLoop responses retries rest
        (r.1, DlEvent.reduceRate 60 :: DlEvent.sleep 60 :: r.2)
      else if 500 ≤ code then
        if attempt < retries - 1 then
          let r := downloadLoop responses retries rest
          (r.1, DlEvent.sleep (2 ^ attempt) :: r.2)
        else (.failure ("HTTP " ++ toString code), [])
      else if code = 404 then (.failure "Not found (404)", [])
      else (.failure ("HTTP " ++ toString code), [])
    | .timeout =>
      if attempt < retries - 1 then
        let r := downloadLoop responses retries rest
        (r.1, DlEvent.sleep (2 ^ attempt) :: r.2)
      else (.failure "Timeout", [])
    | .exc msg => (.failure msg, [])

/-- Python `download_tesis(session, tesis_id, retries=3)`:
`for attempt in range(retries)`. -/
def download_tesis (responses : Nat → HttpResp) (retries : Nat := 3) :
    DlResult × List DlEvent :=
  downloadLoop responses retries (List.range retries)

/-! ## `MassTesisDownloader.process_batch` (lines 248-311)

Within a batch the downloads run concurrently and results are collected
with `asyncio.as_completed`, i.e. in task *completion* order.  The batch
ids and the per-id outcome are fixed; the completion order is a
permutation of the batch ids.  After the barrier (all tasks resolved)
the successes are written, in `results` order, as one JSON array. -/

def batchFileContents (outcomes : Int → DlResult) (completionOrder : List Int) :
    List Nat :=
  (completionOrder.map outcomes).filterMap fun r =>
    match r with
    | .success d => some d
    | .failure _ => none

/-! ## retry_handler.py — `RetryHandler.execute_with_retry`

The four `openai` exception classes get identical retriable treatment;
a bare `Exception` is re-raised at once.  Outcomes of successive calls
to `func` are a function `outcomes : Nat → CallOutcome`; the model
returns the result, the list of back-off sleeps performed, and the
number of calls actually issued. -/

inductive ApiErrKind where
  | rateLimit
  | apiError
  | apiConnection
  | timeout
  | other
  deriving Repr, DecidableEq

/-- An error kind is retriable iff it is one of the four `openai`
classes with a dedicated `except` clause. -/
def ApiErrKind.retriable : ApiErrKind → Bool
  | .other => false
  | _ => true

inductive CallOutcome where
  | ok (v : Nat)
  | err (k : ApiErrKind) (msg : String)
  deriving Repr, DecidableEq

inductive ExecResult where
  | ok (v : Nat)
  | raised (k : ApiErrKind) (msg : String)
  /-- the unreachable `raise Exception(f"Failed after ...")` after the loop -/
  | exhausted
  deriving Repr, DecidableEq

/-- The `for attempt in range(self.max_retries)` loop of
`execute_with_retry` (retry_handler.py lines 43-93), consuming the list
of remaining values of `attempt`; components of the result: outcome,
back-off sleeps performed, number of calls to `func` issued. -/
def execLoop (outcomes : Nat → CallOutcome) (maxRetries : Nat) (baseDelay : ℚ) :
    List Nat → ExecResult × List ℚ × Nat
  | [] => (.exhausted, [], 0)
  | attempt :: rest =>
    match outcomes attempt with
    | .ok v => (.ok v, [], 1)
    | .err k msg =>
      if k.retriable then
        if attempt = maxRetries - 1 then (.raised k msg, [], 1)
        else
          let r := execLoop outcomes maxRetries baseDelay rest
          (r.1, baseDelay * 2 ^ attempt :: r.2.1, r.2.2 + 1)
      else (.raised k msg, [], 1)

/-- Python `execute_with_retry(func, ...)`: `for attempt in range(max_retries)`. -/
def execute_with_retry (outcomes : Nat → CallOutcome) (maxRetries : Nat := 5)
    (baseDelay : ℚ := 1) : ExecResult × List ℚ × Nat :=
  execLoop outcomes maxRetries baseDelay (List.range maxRetries)

/-! ## db_utils.py / embed_all_tesis.py — embedding persistence (C9)

`DatabaseManager.insert_embeddings_batch` (db_utils.py lines 117-142)
returns `len(embeddings)` on success and catches any exception, logging
it and returning `0`.  `EmbeddingPipeline.process_single_tesis`
(embed_all_tesis.py lines 142-185) raises on empty chunk lists or
embedding failures, but a database failure leaves it returning normally
with `inserted = 0`; `process_batch` (lines 187-227) then marks the
tesis processed. -/

inductive DbOutcome where
  | ok
  | fail (msg : String)
  deriving Repr, DecidableEq

/-- Python `insert_embeddings_batch`: the `except` clause swallows the database
error and returns `0`. -/
def insert_embeddings_batch (outcome : DbOutcome) (embeddings : List α) : Nat :=
  match outcome with
  | .ok => embeddings.length
  | .fail _ => 0

structure SingleStats where
  chunks : Nat
  tokens : Nat
  inserted : Nat
  deriving Repr, DecidableEq

/-- Environment of one document inside `process_batch`: its id, the
chunk list `prepare_document_for_embedding` would produce, the token
total, whether the embedding API call chain succeeds, and the database
write outcome. -/
structure DocEnv where
  id : Int
  chunks : List (List Char × String)
  tokens : Nat
  embedOk : Bool
  dbOutcome : DbOutcome

/-- Python `process_single_tesis(doc)`: `.error` models an exception
propagating to the caller. -/
def process_single_tesis (doc : DocEnv) : Except String SingleStats :=
  if doc.chunks.isEmpty then
    .error "No chunks generated"
  else if doc.embedOk then
    .ok { chunks := doc.chunks.length
          tokens := doc.tokens
          inserted := insert_embeddings_batch doc.dbOutcome doc.chunks }
  else .error "embedding API error"

structure BatchStats where
  successful : Nat
  failed : Nat
  chunks : Nat
  tokens : Nat
  deriving Repr, DecidableEq

/-- One iteration of the `for doc in ...` loop of `process_batch`:
success marks the tesis processed in the checkpoint, an exception is
caught at item scope and marks it failed. -/
def processBatchStep (now : String) (acc : EmbCheckpointState × BatchStats)
    (doc : DocEnv) : EmbCheckpointState × BatchStats :=
  match process_single_tesis doc with
  | .ok r =>
    (mark_processed acc.1 doc.id r.chunks r.tokens now,
     { acc.2 with
       successful := acc.2.successful + 1
       chunks := acc.2.chunks + r.chunks
       tokens := acc.2.tokens + r.tokens })
  | .error e =>
    (mark_failed acc.1 doc.id e now,
     { acc.2 with failed := acc.2.failed + 1 })

/-- Python `process_batch(tesis_ids)` over the fetched documents. -/
def process_batch (cp : EmbCheckpointState) (docs : List DocEnv)
    (now : String) : EmbCheckpointState × BatchStats :=
  docs.foldl (processBatchStep now) (cp, ⟨0, 0, 0, 0⟩)

/-- The resume filter of `EmbeddingPipeline.run` (embed_all_tesis.py
lines 246-247): ids already in `processed_tesis` are skipped. -/
def runUnprocessedIds (allIds : List Int) (cp : EmbCheckpointState) : List Int :=
  allIds.filter fun tid => !(decide (tid ∈ cp.processed_tesis))

/-! ## update_incremental.py — `IncrementalUpdateManager` (C6)

The durable store is modelled by the list of ids present in
`tesis_documents`; the Supabase `.in_('id_tesis', batch)` query returns
the ids of the batch present in the store. -/

/-- Python `range(0, len(id_list), batch_size)` slicing: the list cut into
pieces of `n` elements, structurally recursive on a fuel that the
wrapper `chunksOf` instantiates with the list length (enough fuel for
any `n ≥ 1`; the Python code uses the constant `batch_size = 1000`). -/
def chunksOfGo (n : Nat) : Nat → List α → List (List α)
  | 0, _ => []
  | _, [] => []
  | fuel + 1, x :: xs => (x :: xs.take (n - 1)) :: chunksOfGo n fuel ((x :: xs).drop n)

/-- Python `id_list[i:i+batch_size]` slices for `i in range(0, len, batch_size)`. -/
def chunksOf (n : Nat) (l : List α) : List (List α) :=
  chunksOfGo n l.length l

/-- Python `get_existing_ids(id_list)` (update_incremental.py lines 80-112):
queries the store in batches of 1000 and accumulates the ids found. -/
def get_existing_ids (store : List Int) (idList : List Int) : Finset Int :=
  (chunksOf 1000 idList).foldl
    (fun acc batch => acc ∪ (batch.filter fun i => decide (i ∈ store)).toFinset) ∅

/-- Python `get_new_ids()` (lines 163-187): ids from the recent-window scan
absent from the store, sorted ascending (`new_ids.sort()`). -/
def get_new_ids (store : List Int) (remoteScan : List Int) : List Int :=
  if remoteScan = [] then []
  else
    let existing := get_existing_ids store remoteScan
    let newIds := remoteScan.filter fun i => !(decide (i ∈ existing))
    newIds.insertionSort (· ≤ ·)

/-! ## text_processing.py — `LegalTextProcessor.chunk_text` (C3)

Text is a `List Char` (Python strings are sequences of code points).
`str.split('\n\n')`, `str.strip()` and negative-index slicing are
embedded below with Python semantics. -/

/-- Python `text.split('\n\n')`. -/
def splitParas : List Char → List (List Char)
  | [] => [[]]
  | '\n' :: '\n' :: rest => [] :: splitParas rest
  | c :: rest =>
    match splitParas rest with
    | [] => [[c]]
    | h :: t => (c :: h) :: t

/-- Python `s.strip()`. -/
def pyStrip (l : List Char) : List Char :=
  ((l.dropWhile Char.isWhitespace).reverse.dropWhile Char.isWhitespace).reverse

/-- Python `current_chunk[-overlap_chars:] if len(current_chunk) > overlap_chars
else current_chunk` (text_processing.py line 104).  Note the Python quirk
`s[-0:] = s`. -/
def overlapTail (overlapChars : Nat) (current : List Char) : List Char :=
  if overlapChars < current.length then
    if overlapChars = 0 then current
    else current.drop (current.length - overlapChars)
  else current

/-- One iteration of the `for para in paragraphs` loop of `chunk_text`
(lines 95-107); the accumulator is `(chunks, current_chunk)`. -/
def chunkStep (charLimit overlapChars : Nat)
    (acc : List (List Char) × List Char) (para0 : List Char) :
    List (List Char) × List Char :=
  let para := pyStrip para0
  if para = [] then acc
  else if charLimit < acc.2.length + para.length ∧ acc.2 ≠ [] then
    (acc.1 ++ [pyStrip acc.2], overlapTail overlapChars acc.2 ++ [' '] ++ para)
  else
    (acc.1, acc.2 ++ (if acc.2 ≠ [] then ['\n', '\n'] else []) ++ para)

/-- Python `chunk_text(text, preserve_paragraphs=True)` (lines 67-121). -/
def chunk_text (maxChunkSize chunkOverlap : Nat) (text : List Char) :
    List (List Char) :=
  if text = [] then []
  else
    let charLimit := maxChunkSize * 4
    let overlapChars := chunkOverlap * 4
    if text.length ≤ charLimit then [text]
    else
      let acc := (splitParas text).foldl (chunkStep charLimit overlapChars) ([], [])
      if acc.2 ≠ [] then acc.1 ++ [pyStrip acc.2] else acc.1

/-- Modelled from the claim's words (the reconstruction the claim
asserts, not code of the repository): remove the fixed character
overlap from the start of each chunk after the first and concatenate
the remainders. -/
def reconstructFromChunks (overlapChars : Nat) : List (List Char) → List Char
  | [] => []
  | c :: cs => c ++ (cs.map fun ch => ch.drop overlapChars).flatten

/-! ## download_all_tesis_to_json.py — `RateLimiter` (C4)

Wall-clock time is `ℚ` seconds.  The model is the sequential execution
of `acquire` (the body runs under `async with self.semaphore`; a single
caller at a time): each call is given the time `now` at which it runs,
`await asyncio.sleep(1.0 - elapsed)` is exact, and the body itself takes
zero time, so the timestamp appended after a sleep is `oldest + 1.0` and
otherwise `now`.  `deque(maxlen=rate)` keeps the most recent `rate`
entries. -/

structure RLState where
  rate : Nat
  deque : List ℚ
  reducedUntil : Option ℚ
  deriving Repr, DecidableEq

def RLState.init (rate : Nat) : RLState := ⟨rate, [], none⟩

/-- Lines 48-53 of `acquire`: the effective rate for this call and the
updated `reduced_until` field (reset to `None` once expired). -/
def acquireEff (s : RLState) (now : ℚ) : Nat × Option ℚ :=
  match s.reducedUntil with
  | some d => if now < d then (max 1 (s.rate / 2), some d) else (s.rate, none)
  | none => (s.rate, none)

/-- Lines 58-60 of `acquire`: pop recorded timestamps older than one
second from the front of the deque. -/
def acquireClean (s : RLState) (now : ℚ) : List ℚ :=
  s.deque.dropWhile fun e => decide (1 < now - e)

/-- Lines 62-69 of `acquire`: the time at which the request is issued
and its timestamp recorded — after `await asyncio.sleep(1.0 - elapsed)`
when the trailing window is full, immediately otherwise. -/
def acquireTime (s : RLState) (now : ℚ) : ℚ :=
  if (acquireEff s now).1 ≤ (acquireClean s now).length then
    if now - (acquireClean s now).headD 0 < 1 then (acquireClean s now).headD 0 + 1
    else now
  else now

/-- Python `RateLimiter.acquire` (download_all_tesis_to_json.py lines 46-69):
returns the updated state and the recorded request timestamp.
`deque(maxlen=rate)` keeps the most recent `rate` appended entries. -/
def acquire (s : RLState) (now : ℚ) : RLState × ℚ :=
  let d2 := acquireClean s now ++ [acquireTime s now]
  (⟨s.rate, d2.drop (d2.length - s.rate), (acquireEff s now).2⟩, acquireTime s now)

/-- Python `RateLimiter.reduce_rate(duration)` (lines 71-79). -/
def reduce_rate (s : RLState) (now : ℚ) (duration : ℚ := 300) : RLState :=
  { s with reducedUntil := some (now + duration) }

/-- A client interaction with the limiter: an `acquire` entered at time
`now`, or a `reduce_rate` call at time `now`. -/
inductive RLEvent where
  | acq (now : ℚ)
  | reduce (now : ℚ) (duration : ℚ)
  deriving Repr, DecidableEq

def rlStep (acc : RLState × List ℚ) : RLEvent → RLState × List ℚ
  | .acq now => ((acquire acc.1 now).1, acc.2 ++ [(acquire acc.1 now).2])
  | .reduce now dur => (reduce_rate acc.1 now dur, acc.2)

def runRLFrom (acc : RLState × List ℚ) : List RLEvent → RLState × List ℚ
  | [] => acc
  | e :: es => runRLFrom (rlStep acc e) es

/-- Run a whole event trace against a fresh `RateLimiter(rate)`,
collecting the issued request timestamps in order. -/
def runRL (rate : Nat) (events : List RLEvent) : RLState × List ℚ :=
  runRLFrom (RLState.init rate, []) events

/-- Trace well-formedness: an `acquire` cannot be entered before every
previously issued request's recorded timestamp (a sequential caller
re-enters only after the previous `acquire` returned). -/
def validFrom (acc : RLState × List ℚ) : List RLEvent → Bool
  | [] => true
  | e :: es =>
    (match e with
     | .acq now => acc.2.all fun x => decide (x ≤ now)
     | .reduce _ _ => true) && validFrom (rlStep acc e) es

def validTrace (rate : Nat) (events : List RLEvent) : Bool :=
  validFrom (RLState.init rate, []) events

/-- Number of issued requests whose recorded timestamps fall within the
trailing 1-second window `(t - 1, t]`. -/
def windowCount (issued : List ℚ) (t : ℚ) : Nat :=
  issued.countP fun x => decide (t - 1 < x) && decide (x ≤ t)

/-- Invariant of the limiter run: the recorded deque is a suffix of the
issued-timestamp history, holds at most `rate` entries, every timestamp
that has left the deque is at least one second older than the most
recent issued timestamp, and every trailing 1-second window holds at
most `rate` issued timestamps. -/
def RLInv (rate : Nat) (s : RLState) (issued : List ℚ) : Prop :=
  s.rate = rate ∧
  s.deque.length ≤ rate ∧
  (∃ dropped, issued = dropped ++ s.deque ∧
    ∀ e ∈ dropped, ∀ L, issued.getLast? = some L → e + 1 ≤ L) ∧
  (∀ a : ℚ, windowCount issued a ≤ rate)

/-- The concrete trace refuting the half-rate bound: four requests
issued in under a second at full rate, a server-signalled overload, then
one more `acquire` during the cooldown. -/
def cooldownTrace : List RLEvent :=
  [.acq 0, .acq (1/5), .acq (2/5), .acq (3/5), .reduce (7/10) 60, .acq (9/10)]

/-! # Theorems -/

/-! ## C2 — atomicity of `save_checkpoint` -/

theorem runFs_cons (s : FsState) (op : FsOp) (ops : List FsOp) :
    runFs s (op :: ops) = runFs (applyFsOp s op) ops := rfl

theorem runFs_append (s : FsState) (l₁ l₂ : List FsOp) :
    runFs s (l₁ ++ l₂) = runFs (runFs s l₁) l₂ :=
  List.foldl_append _ _ _ _

theorem runFs_appendTemps_checkpoint :
    ∀ (ws : List (List Nat)) (s : FsState),
      (runFs s (ws.map FsOp.appendTemp)).checkpoint = s.checkpoint
  | [], _ => rfl
  | w :: ws, s => by
    rw [List.map_cons, runFs_cons]
    exact runFs_appendTemps_checkpoint ws (applyFsOp s (.appendTemp w))

theorem runFs_appendTemps_temp :
    ∀ (ws : List (List Nat)) (c : List Nat) (s : FsState), s.temp = some c →
      (runFs s (ws.map FsOp.appendTemp)).temp = some (c ++ ws.flatten)
  | [], c, s, h => by simpa [runFs] using h
  | w :: ws, c, s, h => by
    rw [List.map_cons, runFs_cons]
    have hstep : (applyFsOp s (.appendTemp w)).temp = some (c ++ w) := by
      simp [applyFsOp, h]
    rw [runFs_appendTemps_temp ws (c ++ w) _ hstep]
    simp

theorem applyFsOp_rename_checkpoint (s : FsState) (c : List Nat)
    (h : s.temp = some c) :
    (applyFsOp s .renameTempToCheckpoint).checkpoint = some c := by
  simp [applyFsOp, h]

/-- The checkpoint contents after the complete save. -/
theorem runFs_save_complete (s0 : FsState) (writes : List (List Nat)) :
    (runFs s0 (saveCheckpointOps writes)).checkpoint = some writes.flatten := by
  unfold saveCheckpointOps
  rw [runFs_cons, runFs_append]
  have htemp : (runFs (applyFsOp s0 .truncTemp) (writes.map FsOp.appendTemp)).temp =
      some ([] ++ writes.flatten) :=
    runFs_appendTemps_temp writes [] _ (by simp [applyFsOp])
  simp only [List.nil_append] at htemp
  exact applyFsOp_rename_checkpoint _ _ htemp

/-- C2: every checkpoint save writes the complete serialized state to
the temp path and installs it with one atomic rename; executing any
prefix of the save's filesystem operations (a crash mid-save) leaves
the checkpoint path holding either the previous content or the new
fully-written content, the completed save leaves the new content, and
no operation of the save writes the checkpoint path directly. -/
theorem c2_save_checkpoint_atomic (s0 : FsState) (writes : List (List Nat)) (k : Nat) :
    ((runFs s0 ((saveCheckpointOps writes).take k)).checkpoint = s0.checkpoint ∨
     (runFs s0 ((saveCheckpointOps writes).take k)).checkpoint = some writes.flatten) ∧
    (runFs s0 (saveCheckpointOps writes)).checkpoint = some writes.flatten ∧
    (∀ b, FsOp.writeCheckpointDirect b ∉ saveCheckpointOps writes) := by
  refine ⟨?_, runFs_save_complete s0 writes, ?_⟩
  · match k with
    | 0 => exact Or.inl rfl
    | j + 1 =>
      unfold saveCheckpointOps
      rw [List.take_succ_cons, runFs_cons]
      by_cases hj : j ≤ (writes.map FsOp.appendTemp).length
      · left
        rw [List.take_append_of_le_length hj, ← List.map_take]
        rw [runFs_appendTemps_checkpoint]
        rfl
      · right
        rw [List.take_of_length_le (by simp at hj ⊢; omega)]
        have := runFs_save_complete s0 writes
        unfold saveCheckpointOps at this
        rwa [runFs_cons] at this
  · intro b hb
    simp [saveCheckpointOps] at hb

/-! ## C7 — `load_checkpoint` never aborts the run -/

/-- C7: Python `load_checkpoint` is a total function of the file contents: a
missing file yields the fresh empty state, an unparseable file yields
the fresh empty state, a parsed file yields exactly the parsed state;
the fresh state has empty processed/failed lists, zero totals and unset
timestamps. -/
theorem c7_load_checkpoint_total (file : Option (List Char))
    (parse : List Char → Option EmbCheckpointState) :
    (file = none → load_checkpoint file parse = freshCheckpoint) ∧
    (∀ c, file = some c → parse c = none →
      load_checkpoint file parse = freshCheckpoint) ∧
    (∀ c st, file = some c → parse c = some st →
      load_checkpoint file parse = st) ∧
    freshCheckpoint.processed_tesis = [] ∧
    freshCheckpoint.failed_tesis = [] ∧
    freshCheckpoint.total_chunks = 0 ∧
    freshCheckpoint.total_tokens = 0 ∧
    freshCheckpoint.actual_cost = 0 ∧
    freshCheckpoint.start_time = none ∧
    freshCheckpoint.last_update = none := by
  refine ⟨?_, ?_, ?_, rfl, rfl, rfl, rfl, rfl, rfl, rfl⟩
  · rintro rfl; rfl
  · rintro c rfl hp; simp [load_checkpoint, hp]
  · rintro c st rfl hp; simp [load_checkpoint, hp]

theorem c7_witness :
    load_checkpoint (some ['x']) (fun _ => none) = freshCheckpoint :=
  (c7_load_checkpoint_total (some ['x']) (fun _ => none)).2.1 ['x'] rfl rfl

/-! ## C10 — `mark_processed` keeps no duplicate-freeness -/

/-- C10: Python `mark_processed` performs no membership check — marking the
same id twice appends it twice, `get_processed_count` counts it twice,
and from the fresh state, marking id 1 twice against a total of 1 (so
every processed id belongs to the total) yields a progress percentage
of 200, exceeding 100. -/
theorem c10_mark_processed_duplicates :
    (∀ (s : EmbCheckpointState) (i : Int) (c t c' t' : Nat) (n n' : String),
      (mark_processed (mark_processed s i c t n) i c' t' n').processed_tesis.count i =
        s.processed_tesis.count i + 2 ∧
      get_processed_count (mark_processed (mark_processed s i c t n) i c' t' n') =
        get_processed_count s + 2) ∧
    (mark_processed (mark_processed freshCheckpoint 1 0 0 "t0") 1 0 0 "t1").processed_tesis
      = [1, 1] ∧
    get_progress_percentage
      (mark_processed (mark_processed freshCheckpoint 1 0 0 "t0") 1 0 0 "t1") 1 = 200 ∧
    (100 : ℚ) < 200 := by
  refine ⟨?_, rfl, ?_, by norm_num⟩
  · intro s i c t c' t' n n'
    constructor
    · simp [mark_processed, List.count_append]
    · simp [mark_processed, get_processed_count]
  · norm_num [get_progress_percentage, get_processed_count, mark_processed, freshCheckpoint]

/-! ## C9 — a swallowed database failure is recorded as processed -/

theorem processBatch_foldl_processed_mono (now : String) :
    ∀ (docs : List DocEnv) (acc : EmbCheckpointState × BatchStats) (x : Int),
      x ∈ acc.1.processed_tesis →
      x ∈ (docs.foldl (processBatchStep now) acc).1.processed_tesis
  | [], _, _, hx => hx
  | doc :: docs, acc, x, hx => by
    rw [List.foldl_cons]
    refine processBatch_foldl_processed_mono now docs _ x ?_
    unfold processBatchStep
    cases process_single_tesis doc with
    | ok r => simpa [mark_processed] using Or.inl hx
    | error e => simpa [mark_failed] using hx

/-- C9: when the chunks are non-empty, the embedding call succeeds and
the database write fails, `insert_embeddings_batch` swallows the error
(returns 0), `process_single_tesis` returns normally with
`inserted = 0`, `process_batch` marks the id processed in the
checkpoint, and the resume filter of `run` skips that id on any later
run. -/
theorem c9_db_failure_marked_processed (cp : EmbCheckpointState) (now : String)
    (pre post : List DocEnv) (doc : DocEnv) (msg : String)
    (hchunks : doc.chunks ≠ []) (hembed : doc.embedOk = true)
    (hdb : doc.dbOutcome = .fail msg) :
    process_single_tesis doc = .ok ⟨doc.chunks.length, doc.tokens, 0⟩ ∧
    doc.id ∈ (process_batch cp (pre ++ doc :: post) now).1.processed_tesis ∧
    ∀ allIds : List Int,
      doc.id ∉ runUnprocessedIds allIds (process_batch cp (pre ++ doc :: post) now).1 := by
  have hsingle : process_single_tesis doc = .ok ⟨doc.chunks.length, doc.tokens, 0⟩ := by
    unfold process_single_tesis
    rw [if_neg (by simpa [List.isEmpty_iff] using hchunks), if_pos hembed, hdb]
    rfl
  have hmem : doc.id ∈ (process_batch cp (pre ++ doc :: post) now).1.processed_tesis := by
    unfold process_batch
    rw [List.foldl_append, List.foldl_cons]
    refine processBatch_foldl_processed_mono now post _ doc.id ?_
    unfold processBatchStep
    rw [hsingle]
    simp [mark_processed]
  refine ⟨hsingle, hmem, fun allIds hin => ?_⟩
  have := (List.mem_filter.mp hin).2
  simp only [Bool.not_eq_true', decide_eq_false_iff_not] at this
  exact this hmem

/-! ## C3 — chunk coverage -/

/-- C3 counterexample: an over-threshold two-paragraph text
(`max_chunk_size = 2`, `chunk_overlap = 1`, so `char_limit = 8` and
`overlap_chars = 4`) chunks into `["aaaaaa", "aaaa bbbbbb"]`; removing
the 4-character overlap from the second chunk and concatenating yields
`"aaaaaa bbbbbb"`, not the source `"aaaaaa\n\nbbbbbb"` — the paragraph
separator at the chunk boundary is lost. -/
theorem c3_coverage_counterexample :
    reconstructFromChunks (1 * 4) (chunk_text 2 1 "aaaaaa\n\nbbbbbb".toList) ≠
      "aaaaaa\n\nbbbbbb".toList := by decide

/-- C3 (amended): coverage holds for under-threshold documents — every
non-empty text of at most `max_chunk_size * 4` characters is returned
as the single chunk equal to the input, so removing overlaps and
concatenating reproduces it; for over-threshold documents the coverage
property fails (the inter-paragraph separator consumed at a chunk
boundary is replaced by the overlap plus a single space). -/
theorem c3_amended_under_threshold_coverage (maxChunkSize chunkOverlap : Nat)
    (text : List Char) (hne : text ≠ [])
    (hle : text.length ≤ maxChunkSize * 4) :
    chunk_text maxChunkSize chunkOverlap text = [text] ∧
    reconstructFromChunks (chunkOverlap * 4)
      (chunk_text maxChunkSize chunkOverlap text) = text := by
  have h1 : chunk_text maxChunkSize chunkOverlap text = [text] := by
    unfold chunk_text
    rw [if_neg hne, if_pos hle]
  refine ⟨h1, ?_⟩
  rw [h1]
  simp [reconstructFromChunks]

theorem c3_amended_witness :
    chunk_text 2 1 ['a'] = [['a']] ∧
    reconstructFromChunks (1 * 4) (chunk_text 2 1 ['a']) = ['a'] :=
  c3_amended_under_threshold_coverage 2 1 ['a'] (by decide) (by decide)

/-! ## C6 — incremental reconciliation -/

theorem chunksOfGo_flatten (n : Nat) (hn : 0 < n) :
    ∀ (fuel : Nat) (l : List α), l.length ≤ fuel →
      (chunksOfGo n fuel l).flatten = l
  | 0, l, h => by
    rw [List.length_eq_zero.mp (Nat.le_zero.mp h)]
    rfl
  | fuel + 1, [], _ => rfl
  | fuel + 1, x :: xs, h => by
    have hdrop : ((x :: xs).drop n).length ≤ fuel := by
      rw [List.length_drop, List.length_cons]
      simp only [List.length_cons] at h
      omega
    simp only [chunksOfGo, List.flatten_cons,
      chunksOfGo_flatten n hn fuel ((x :: xs).drop n) hdrop]
    obtain ⟨nn, rfl⟩ : ∃ nn, n = nn + 1 := ⟨n - 1, by omega⟩
    rw [List.drop_succ_cons, Nat.add_sub_cancel, List.cons_append,
      List.take_append_drop]

theorem chunksOf_flatten (n : Nat) (hn : 0 < n) (l : List α) :
    (chunksOf n l).flatten = l :=
  chunksOfGo_flatten n hn l.length l (Nat.le_refl _)

theorem mem_foldl_union (p : Int → Bool) (x : Int) :
    ∀ (bs : List (List Int)) (init : Finset Int),
      (x ∈ bs.foldl (fun acc b => acc ∪ (b.filter p).toFinset) init ↔
        x ∈ init ∨ ∃ b ∈ bs, x ∈ b.filter p)
  | [], init => by simp
  | b :: bs, init => by
    rw [List.foldl_cons, mem_foldl_union p x bs]
    simp only [Finset.mem_union, List.mem_toFinset, List.mem_cons]
    constructor
    · rintro ((h | h) | ⟨b', hb', h⟩)
      · exact Or.inl h
      · exact Or.inr ⟨b, Or.inl rfl, h⟩
      · exact Or.inr ⟨b', Or.inr hb', h⟩
    · rintro (h | ⟨b', rfl | hb', h⟩)
      · exact Or.inl (Or.inl h)
      · exact Or.inl (Or.inr h)
      · exact Or.inr ⟨b', hb', h⟩

theorem mem_get_existing_ids (store idList : List Int) (x : Int) :
    x ∈ get_existing_ids store idList ↔ x ∈ idList ∧ x ∈ store := by
  unfold get_existing_ids
  rw [mem_foldl_union]
  simp only [Finset.not_mem_empty, false_or, List.mem_filter, decide_eq_true_eq]
  constructor
  · rintro ⟨b, hb, hxb, hxs⟩
    refine ⟨?_, hxs⟩
    rw [← chunksOf_flatten 1000 (by norm_num) idList]
    exact List.mem_flatten.mpr ⟨b, hb, hxb⟩
  · rintro ⟨hxl, hxs⟩
    rw [← chunksOf_flatten 1000 (by norm_num) idList] at hxl
    obtain ⟨b, hb, hxb⟩ := List.mem_flatten.mp hxl
    exact ⟨b, hb, hxb, hxs⟩

/-- C6: Python `get_new_ids` returns exactly the ids of the remote
recent-window scan that are absent from the store, sorted ascending;
in particular with store contents `{1,2,3}` and a remote scan returning
`{2,3,4,5}`, exactly `[4,5]` is returned for processing. -/
theorem c6_get_new_ids_reconciliation (store remote : List Int) :
    (∀ x, x ∈ get_new_ids store remote ↔ x ∈ remote ∧ x ∉ store) ∧
    List.Sorted (· ≤ ·) (get_new_ids store remote) ∧
    get_new_ids [1, 2, 3] [2, 3, 4, 5] = [4, 5] := by
  refine ⟨?_, ?_, by decide⟩
  · intro x
    unfold get_new_ids
    by_cases h : remote = []
    · simp [h]
    · rw [if_neg h, (List.perm_insertionSort _ _).mem_iff]
      simp only [List.mem_filter, Bool.not_eq_true', decide_eq_false_iff_not,
        mem_get_existing_ids]
      tauto
  · unfold get_new_ids
    by_cases h : remote = []
    · simp [h]
    · rw [if_neg h]
      exact List.sorted_insertionSort _ _

/-! ## C1 — a 429 consumes a bounded retry attempt -/

/-- C1 counterexample: with the default `retries = 3` and a server that
answers 429 on every attempt, `download_tesis` terminates with the
terminal failure `'Max retries exceeded'` after exactly three attempts
(each with its rate-limiter degradation and 60-second pause), instead of
retrying indefinitely. -/
theorem c1_429_terminal_counterexample :
    download_tesis (fun _ => .http 429 0) 3 =
      (.failure "Max retries exceeded",
       [.reduceRate 60, .sleep 60, .reduceRate 60, .sleep 60,
        .reduceRate 60, .sleep 60]) := by decide

theorem downloadLoop_all429 (responses : Nat → HttpResp) (retries : Nat) :
    ∀ l : List Nat, (∀ i ∈ l, ∃ d, responses i = .http 429 d) →
      downloadLoop responses retries l =
        (.failure "Max retries exceeded",
         (List.replicate l.length [DlEvent.reduceRate 60, DlEvent.sleep 60]).flatten)
  | [], _ => rfl
  | a :: l, h => by
    obtain ⟨d, hd⟩ := h a (List.mem_cons_self a l)
    have ih := downloadLoop_all429 responses retries l
      fun i hi => h i (List.mem_cons_of_mem a hi)
    simp only [downloadLoop, hd, ih]
    norm_num [List.replicate_succ]

/-- C1 (amended): a 429 response triggers the rate-limiter degradation
and a fixed 60-second pause and the item is retried, but the retry
consumes one of the bounded attempts: `retries` consecutive 429
responses exhaust the loop and the item ends in the terminal failure
`'Max retries exceeded'` (with one degradation + pause per attempt). -/
theorem c1_amended_429_consumes_attempts (responses : Nat → HttpResp)
    (retries : Nat) (h : ∀ i < retries, ∃ d, responses i = .http 429 d) :
    download_tesis responses retries =
      (.failure "Max retries exceeded",
       (List.replicate retries [DlEvent.reduceRate 60, DlEvent.sleep 60]).flatten) := by
  unfold download_tesis
  rw [downloadLoop_all429 responses retries (List.range retries)
    (fun i hi => h i (List.mem_range.mp hi)), List.length_range]

theorem c1_amended_witness :
    download_tesis (fun _ => .http 429 7) 3 =
      (.failure "Max retries exceeded",
       (List.replicate 3 [DlEvent.reduceRate 60, DlEvent.sleep 60]).flatten) :=
  c1_amended_429_consumes_attempts (fun _ => .http 429 7) 3
    (by intro i _; exact ⟨7, rfl⟩)

/-! ## C5 — batch file contents depend on completion order -/

/-- C5 counterexample: two executions of the same two-id batch, with
identical per-id outcomes but opposite task completion orders, write
different batch file contents (the same records in a different array
order). -/
theorem c5_completion_order_counterexample :
    [(1 : Int), 2].Perm [2, 1] ∧
    batchFileContents (fun i => .success i.toNat) [1, 2] ≠
      batchFileContents (fun i => .success i.toNat) [2, 1] := by decide

/-- C5 (amended): for fixed per-id outcomes, the batch file committed
after the barrier holds the same multiset of successful records in
every completion order — only the order within the JSON array follows
completion order. -/
theorem c5_amended_batch_multiset_deterministic (outcomes : Int → DlResult)
    (order₁ order₂ : List Int) (h : order₁.Perm order₂) :
    (batchFileContents outcomes order₁).Perm (batchFileContents outcomes order₂) := by
  unfold batchFileContents
  exact (h.map outcomes).filterMap _

theorem c5_amended_witness :
    (batchFileContents (fun i => .success i.toNat) [1, 2]).Perm
      (batchFileContents (fun i => .success i.toNat) [2, 1]) :=
  c5_amended_batch_multiset_deterministic (fun i => .success i.toNat) [1, 2] [2, 1]
    (by decide)

/-! ## C8 — retry discipline of `execute_with_retry` -/

theorem execLoop_calls_le (outcomes : Nat → CallOutcome) (maxRetries : Nat)
    (baseDelay : ℚ) :
    ∀ l : List Nat, (execLoop outcomes maxRetries baseDelay l).2.2 ≤ l.length
  | [] => Nat.le_refl 0
  | a :: l => by
    have ih := execLoop_calls_le outcomes maxRetries baseDelay l
    cases h : outcomes a with
    | ok v => simp [execLoop, h]
    | err k msg =>
      by_cases hk : k.retriable
      · by_cases ha : a = maxRetries - 1
        · subst ha
          simp [execLoop, h, hk]
        · simp only [execLoop, h, hk, if_true, if_neg ha, List.length_cons]
          omega
      · simp [execLoop, h, hk]

theorem execLoop_all_retriable (outcomes : Nat → CallOutcome) (maxRetries : Nat)
    (baseDelay : ℚ) (k : Nat → ApiErrKind) (m : Nat → String)
    (hk : ∀ i < maxRetries, outcomes i = .err (k i) (m i) ∧ (k i).retriable = true) :
    ∀ (n a : Nat), a + n = maxRetries → 0 < n →
      execLoop outcomes maxRetries baseDelay (List.range' a n) =
        (.raised (k (maxRetries - 1)) (m (maxRetries - 1)),
         (List.range' a (n - 1)).map (fun i => baseDelay * 2 ^ i), n) := by
  intro n
  induction n with
  | zero => omega
  | succ nn ih =>
    intro a hsum _
    obtain ⟨ha, har⟩ := hk a (by omega)
    rw [List.range'_succ, execLoop, ha]
    simp only [har, if_true]
    match nn, hsum with
    | 0, hsum =>
      rw [if_pos (by omega)]
      have : maxRetries - 1 = a := by omega
      rw [this]
      rfl
    | nn + 1, hsum =>
      rw [if_neg (by omega)]
      rw [ih (a + 1) (by omega) (by omega)]
      simp only [Nat.add_sub_cancel, Prod.mk.injEq, true_and]
      refine ⟨?_, by trivial⟩
      rw [List.range'_succ, List.map_cons]

theorem execLoop_nonretriable (outcomes : Nat → CallOutcome) (maxRetries : Nat)
    (baseDelay : ℚ) (j : Nat) (kj : ApiErrKind) (mj : String)
    (hpre : ∀ i < j, ∃ kk mm, outcomes i = .err kk mm ∧ kk.retriable = true)
    (hj : outcomes j = .err kj mj) (hnr : kj.retriable = false) :
    ∀ (n a : Nat), a + n = maxRetries → a ≤ j → j < maxRetries →
      execLoop outcomes maxRetries baseDelay (List.range' a n) =
        (.raised kj mj,
         (List.range' a (j - a)).map (fun i => baseDelay * 2 ^ i), j - a + 1) := by
  intro n
  induction n with
  | zero => omega
  | succ nn ih =>
    intro a hsum haj hjm
    rw [List.range'_succ, execLoop]
    by_cases ha : a = j
    · subst ha
      rw [hj]
      simp [hnr]
    · obtain ⟨kk, mm, houta, hra⟩ := hpre a (by omega)
      rw [houta]
      simp only [hra, if_true]
      rw [if_neg (by omega)]
      rw [ih (a + 1) (by omega) (by omega) hjm]
      have hja : j - a = (j - (a + 1)) + 1 := by omega
      simp only [Prod.mk.injEq, true_and]
      constructor
      · rw [hja, List.range'_succ, List.map_cons]
      · omega

/-- C8: Python `execute_with_retry` issues at most `max_retries` calls; when
every attempt fails with a retriable error (rate-limit, API, connection
or timeout error) it sleeps `base_delay * 2 ^ attempt` between attempts
and re-raises the error of the last attempt once attempts are
exhausted; a non-retriable exception is re-raised immediately on its
first occurrence, with no further call attempts. -/
theorem c8_execute_with_retry (outcomes : Nat → CallOutcome) (maxRetries : Nat)
    (baseDelay : ℚ) :
    ((execute_with_retry outcomes maxRetries baseDelay).2.2 ≤ maxRetries) ∧
    (∀ (k : Nat → ApiErrKind) (m : Nat → String), 0 < maxRetries →
      (∀ i < maxRetries, outcomes i = .err (k i) (m i) ∧ (k i).retriable = true) →
      execute_with_retry outcomes maxRetries baseDelay =
        (.raised (k (maxRetries - 1)) (m (maxRetries - 1)),
         (List.range (maxRetries - 1)).map (fun i => baseDelay * 2 ^ i), maxRetries)) ∧
    (∀ (j : Nat) (kj : ApiErrKind) (mj : String), j < maxRetries →
      (∀ i < j, ∃ kk mm, outcomes i = .err kk mm ∧ kk.retriable = true) →
      outcomes j = .err kj mj → kj.retriable = false →
      execute_with_retry outcomes maxRetries baseDelay =
        (.raised kj mj, (List.range j).map (fun i => baseDelay * 2 ^ i), j + 1)) := by
  refine ⟨?_, ?_, ?_⟩
  · calc (execute_with_retry outcomes maxRetries baseDelay).2.2
        ≤ (List.range maxRetries).length :=
          execLoop_calls_le outcomes maxRetries baseDelay (List.range maxRetries)
      _ = maxRetries := List.length_range maxRetries
  · intro k m hpos hk
    unfold execute_with_retry
    rw [List.range_eq_range',
      execLoop_all_retriable outcomes maxRetries baseDelay k m hk maxRetries 0
        (by omega) hpos, List.range_eq_range']
  · intro j kj mj hjm hpre hj hnr
    unfold execute_with_retry
    rw [List.range_eq_range',
      execLoop_nonretriable outcomes maxRetries baseDelay j kj mj hpre hj hnr
        maxRetries 0 (by omega) (by omega) hjm, List.range_eq_range']
    simp

theorem c8_witness :
    (execute_with_retry (fun _ => .err .rateLimit "rl") 5 1).2.2 ≤ 5 ∧
    execute_with_retry (fun _ => .err .rateLimit "rl") 5 1 =
      (.raised .rateLimit "rl", (List.range 4).map (fun i => (1 : ℚ) * 2 ^ i), 5) ∧
    execute_with_retry (fun i => if i = 0 then .err .apiError "a" else .err .other "boom") 5 1 =
      (.raised .other "boom", (List.range 1).map (fun i => (1 : ℚ) * 2 ^ i), 2) := by
  obtain ⟨h1, h2, -⟩ := c8_execute_with_retry (fun _ => .err .rateLimit "rl") 5 1
  obtain ⟨-, -, h3⟩ := c8_execute_with_retry
    (fun i => if i = 0 then .err .apiError "a" else .err .other "boom") 5 1
  refine ⟨h1, h2 (fun _ => .rateLimit) (fun _ => "rl") (by omega) (fun i _ => ⟨rfl, rfl⟩), ?_⟩
  refine h3 1 .other "boom" (by omega) (fun i hi => ⟨.apiError, "a", ?_, rfl⟩) rfl rfl
  have h0 : i = 0 := by omega
  rw [h0]
  rfl

theorem c9_witness :
    process_single_tesis ⟨7, [(['a'], "rubro")], 3, true, .fail "db down"⟩ =
      .ok ⟨1, 3, 0⟩ ∧
    (7 : Int) ∈ (process_batch freshCheckpoint
      [⟨7, [(['a'], "rubro")], 3, true, .fail "db down"⟩] "t").1.processed_tesis := by
  obtain ⟨h1, h2, _⟩ := c9_db_failure_marked_processed freshCheckpoint "t" [] []
    ⟨7, [(['a'], "rubro")], 3, true, .fail "db down"⟩ "db down"
    (by decide) rfl rfl
  exact ⟨h1, h2⟩

/-! ## C4 — rate compliance of `RateLimiter.acquire` -/

theorem now_le_acquireTime (s : RLState) (now : ℚ) : now ≤ acquireTime s now := by
  unfold acquireTime
  split_ifs with h1 h2
  · linarith
  · exact le_refl now
  · exact le_refl now

theorem acquireEff_le_rate (s : RLState) (now : ℚ) (h : 1 ≤ s.rate) :
    (acquireEff s now).1 ≤ s.rate := by
  rcases hsr : s.reducedUntil with - | d
  · simp only [acquireEff, hsr]
    exact Nat.le_refl _
  · simp only [acquireEff, hsr]
    split_ifs
    · exact max_le h (Nat.div_le_self _ _)
    · exact Nat.le_refl _

theorem acquireClean_split (s : RLState) (now : ℚ) :
    s.deque = s.deque.takeWhile (fun e => decide (1 < now - e)) ++ acquireClean s now :=
  (List.takeWhile_append_dropWhile _ _).symm

theorem mem_takeWhile_old (s : RLState) (now : ℚ) (e : ℚ)
    (he : e ∈ s.deque.takeWhile fun x => decide (1 < now - x)) : 1 < now - e := by
  simpa using List.mem_takeWhile_imp he

theorem headD_add_one_le_acquireTime (s : RLState) (now : ℚ) (hrate : 1 ≤ s.rate)
    (hlen : (acquireClean s now).length = s.rate) :
    (acquireClean s now).headD 0 + 1 ≤ acquireTime s now := by
  unfold acquireTime
  rw [if_pos (by rw [hlen]; exact acquireEff_le_rate s now hrate)]
  split_ifs with h2
  · exact le_refl _
  · linarith

/-- Counting bound: a list splitting as old-enough elements followed by
a tail of at most `rate` entries whose head (when the tail is full) is
also old enough has at most `rate - 1` entries younger than `t - 1`. -/
theorem countP_window_tail_bound (pre d : List ℚ) (t : ℚ) (rate : Nat)
    (hrate : 1 ≤ rate) (hpre : ∀ e ∈ pre, e + 1 ≤ t) (hdlen : d.length ≤ rate)
    (hhead : d.length = rate → d.headD 0 + 1 ≤ t) :
    (pre ++ d).countP (fun x => decide (t - 1 < x)) ≤ rate - 1 := by
  rw [List.countP_append]
  have hpre0 : pre.countP (fun x => decide (t - 1 < x)) = 0 := by
    rw [List.countP_eq_zero]
    intro e he
    have := hpre e he
    simp only [decide_eq_true_eq, not_lt]
    linarith
  rw [hpre0, Nat.zero_add]
  by_cases hfull : d.length = rate
  · obtain ⟨dh, dt, rfl⟩ : ∃ dh dt, d = dh :: dt := by
      cases d with
      | nil => simp at hfull; omega
      | cons dh dt => exact ⟨dh, dt, rfl⟩
    have hdh : dh + 1 ≤ t := by
      have := hhead hfull
      simpa using this
    rw [List.countP_cons]
    have hfalse : (decide (t - 1 < dh)) = false := by
      simp only [decide_eq_false_iff_not, not_lt]
      linarith
    rw [hfalse]
    simp only [Bool.false_eq_true, if_false, Nat.add_zero]
    calc dt.countP (fun x => decide (t - 1 < x)) ≤ dt.length :=
          List.countP_le_length _
      _ ≤ rate - 1 := by
          simp only [List.length_cons] at hfull
          omega
  · calc d.countP (fun x => decide (t - 1 < x)) ≤ d.length :=
        List.countP_le_length _
      _ ≤ rate - 1 := by omega

/-- Window-count preservation when appending a new timestamp `t` with
at most `rate - 1` recorded timestamps younger than `t - 1`. -/
theorem windowCount_concat_le (issued : List ℚ) (t : ℚ) (rate : Nat)
    (hrate : 1 ≤ rate) (hwin : ∀ a, windowCount issued a ≤ rate)
    (hkey : issued.countP (fun x => decide (t - 1 < x)) ≤ rate - 1) (a : ℚ) :
    windowCount (issued ++ [t]) a ≤ rate := by
  unfold windowCount at *
  rw [List.countP_append]
  by_cases hta : (decide (a - 1 < t) && decide (t ≤ a)) = true
  · have h1 : List.countP (fun x => decide (a - 1 < x) && decide (x ≤ a)) [t] = 1 := by
      simp only [List.countP_cons, List.countP_nil, hta, if_true, Nat.zero_add]
    rw [h1]
    simp only [Bool.and_eq_true, decide_eq_true_eq] at hta
    have hmono : issued.countP (fun x => decide (a - 1 < x) && decide (x ≤ a)) ≤
        issued.countP (fun x => decide (t - 1 < x)) := by
      apply List.countP_mono_left
      intro x _ hpx
      simp only [Bool.and_eq_true, decide_eq_true_eq] at hpx
      simp only [decide_eq_true_eq]
      obtain ⟨h1x, h2x⟩ := hpx
      obtain ⟨hta1, hta2⟩ := hta
      linarith
    omega
  · have h0 : List.countP (fun x => decide (a - 1 < x) && decide (x ≤ a)) [t] = 0 := by
      simp only [List.countP_cons, List.countP_nil, Nat.zero_add]
      rw [if_neg (by simpa using hta)]
    rw [h0, Nat.add_zero]
    exact hwin a

/-- One `acquire` preserves the limiter invariant, provided the call is
entered no earlier than every previously issued timestamp. -/
theorem RLInv_acquire (rate : Nat) (hrate : 1 ≤ rate) (s : RLState)
    (issued : List ℚ) (now : ℚ) (hinv : RLInv rate s issued)
    (hnow : ∀ x ∈ issued, x ≤ now) :
    RLInv rate (acquire s now).1 (issued ++ [(acquire s now).2]) := by
  obtain ⟨hr, hlen, ⟨dropped, hdec, hdrop⟩, hwin⟩ := hinv
  have hsrate : 1 ≤ s.rate := by omega
  have hsplit := acquireClean_split s now
  have hnt : now ≤ acquireTime s now := now_le_acquireTime s now
  have hpreW : ∀ e ∈ s.deque.takeWhile (fun x => decide (1 < now - x)),
      e + 1 ≤ acquireTime s now := by
    intro e he
    have := mem_takeWhile_old s now e he
    linarith
  have hpreD : ∀ e ∈ dropped, e + 1 ≤ acquireTime s now := by
    intro e he
    cases hgl : issued.getLast? with
    | none =>
      rw [List.getLast?_eq_none_iff] at hgl
      rw [hgl] at hdec
      rw [List.nil_eq, List.append_eq_nil] at hdec
      rw [hdec.1] at he
      exact absurd he (List.not_mem_nil e)
    | some L =>
      have hL := hdrop e he L hgl
      have hLmem : L ∈ issued := by
        obtain ⟨hne, rfl⟩ :=
          List.mem_getLast?_eq_getLast (Option.mem_def.mpr hgl)
        exact List.getLast_mem hne
      have := hnow L hLmem
      linarith
  have hpre : ∀ e ∈ dropped ++ s.deque.takeWhile (fun x => decide (1 < now - x)),
      e + 1 ≤ acquireTime s now := by
    intro e he
    rcases List.mem_append.mp he with h | h
    · exact hpreD e h
    · exact hpreW e h
  have hissued : issued =
      (dropped ++ s.deque.takeWhile (fun x => decide (1 < now - x))) ++
        acquireClean s now := by
    rw [hdec]
    conv_lhs => rw [hsplit]
    rw [List.append_assoc]
  have hdlen : (acquireClean s now).length ≤ rate := by
    have h1 : (acquireClean s now).length ≤ s.deque.length := by
      conv_rhs => rw [hsplit]
      simp only [List.length_append]
      omega
    omega
  have hkey : issued.countP (fun x => decide (acquireTime s now - 1 < x)) ≤ rate - 1 := by
    rw [hissued]
    refine countP_window_tail_bound _ _ _ rate hrate hpre hdlen ?_
    intro hfull
    exact headD_add_one_le_acquireTime s now hsrate (by omega)
  have hwin' : ∀ a, windowCount (issued ++ [acquireTime s now]) a ≤ rate :=
    windowCount_concat_le issued (acquireTime s now) rate hrate hwin hkey
  have hglast : (issued ++ [acquireTime s now]).getLast? = some (acquireTime s now) :=
    List.getLast?_concat _
  simp only [acquire]
  refine ⟨hr, ?_, ?_, hwin'⟩
  · show ((acquireClean s now ++ [acquireTime s now]).drop
      ((acquireClean s now ++ [acquireTime s now]).length - s.rate)).length ≤ rate
    simp only [List.length_drop, List.length_append, List.length_cons, List.length_nil]
    omega
  · by_cases hfull : (acquireClean s now).length = rate
    · obtain ⟨dh, dt, hcd⟩ : ∃ dh dt, acquireClean s now = dh :: dt := by
        rcases hclean : acquireClean s now with - | ⟨dh, dt⟩
        · rw [hclean] at hfull
          simp only [List.length_nil] at hfull
          omega
        · exact ⟨dh, dt, rfl⟩
      have hdh : dh + 1 ≤ acquireTime s now := by
        have := headD_add_one_le_acquireTime s now hsrate (by omega)
        rw [hcd] at this
        simpa using this
      refine ⟨(dropped ++ s.deque.takeWhile fun x => decide (1 < now - x)) ++ [dh],
        ?_, ?_⟩
      · show issued ++ [acquireTime s now] =
          _ ++ ((acquireClean s now ++ [acquireTime s now]).drop
            ((acquireClean s now ++ [acquireTime s now]).length - s.rate))
        rw [hissued, hcd]
        have hd2len : ((dh :: dt) ++ [acquireTime s now]).length - s.rate = 1 := by
          simp only [List.length_append, List.length_cons, List.length_nil]
          rw [hcd] at hfull
          simp only [List.length_cons] at hfull
          omega
        rw [hd2len]
        simp only [List.cons_append, List.drop_succ_cons, List.drop_zero,
          List.append_assoc, List.singleton_append, List.nil_append]
      · intro e he L hgl
        rw [hglast] at hgl
        obtain rfl : acquireTime s now = L := Option.some.inj hgl
        rcases List.mem_append.mp he with h | h
        · exact hpre e h
        · rw [List.mem_singleton] at h
          rw [h]
          exact hdh
    · have hd2len : ((acquireClean s now ++ [acquireTime s now]).length - s.rate) = 0 := by
        simp only [List.length_append, List.length_cons, List.length_nil]
        omega
      refine ⟨dropped ++ s.deque.takeWhile fun x => decide (1 < now - x), ?_, ?_⟩
      · show issued ++ [acquireTime s now] =
          _ ++ ((acquireClean s now ++ [acquireTime s now]).drop
            ((acquireClean s now ++ [acquireTime s now]).length - s.rate))
        rw [hd2len, List.drop_zero, hissued]
        simp only [List.append_assoc]
      · intro e he L hgl
        rw [hglast] at hgl
        obtain rfl : acquireTime s now = L := Option.some.inj hgl
        exact hpre e he

theorem RLInv_init (rate : Nat) : RLInv rate (RLState.init rate) [] :=
  ⟨rfl, by simp [RLState.init], ⟨[], rfl, by simp⟩,
   fun a => by simp [windowCount]⟩

theorem RLInv_reduce (rate : Nat) (s : RLState) (issued : List ℚ) (now dur : ℚ)
    (hinv : RLInv rate s issued) : RLInv rate (reduce_rate s now dur) issued :=
  hinv

theorem runRLFrom_inv (rate : Nat) (hrate : 1 ≤ rate) :
    ∀ (events : List RLEvent) (acc : RLState × List ℚ),
      RLInv rate acc.1 acc.2 → validFrom acc events = true →
      RLInv rate (runRLFrom acc events).1 (runRLFrom acc events).2
  | [], _, hinv, _ => hinv
  | e :: es, acc, hinv, hv => by
    cases e with
    | acq now =>
      simp only [validFrom, Bool.and_eq_true] at hv
      obtain ⟨hc, hrest⟩ := hv
      refine runRLFrom_inv rate hrate es (rlStep acc (.acq now)) ?_ hrest
      have hxs : ∀ x ∈ acc.2, x ≤ now := by
        intro x hx
        simpa using List.all_eq_true.mp hc x hx
      exact RLInv_acquire rate hrate acc.1 acc.2 now hinv hxs
    | reduce now dur =>
      simp only [validFrom, Bool.true_and] at hv
      exact runRLFrom_inv rate hrate es (rlStep acc (.reduce now dur))
        (RLInv_reduce rate acc.1 acc.2 now dur hinv) hv

/-- C4 (amended): for every well-formed sequence of `acquire` and
`reduce_rate` calls on a limiter with `rate ≥ 1`, the number of issued
requests whose recorded timestamps fall within any trailing 1-second
window never exceeds the configured rate — but this full-rate bound is
all the limiter guarantees: during an active cooldown the count is not
bounded by half the configured rate (see the counterexample). -/
theorem c4_amended_window_rate_bound (rate : Nat) (hrate : 1 ≤ rate)
    (events : List RLEvent) (hvalid : validTrace rate events = true) (t : ℚ) :
    windowCount (runRL rate events).2 t ≤ rate :=
  (runRLFrom_inv rate hrate events (RLState.init rate, [])
    (RLInv_init rate) hvalid).2.2.2 t

theorem c4_amended_witness : windowCount (runRL 1 [.acq 0]).2 1 ≤ 1 :=
  c4_amended_window_rate_bound 1 (by decide) [.acq 0] (by decide) 1

/-- C4 counterexample: on `cooldownTrace` (rate 4; requests at times
0, 0.2, 0.4, 0.6; `reduce_rate` at 0.7; one more `acquire` entered at
0.9 and issued at 1.0) the trace is well-formed, the cooldown is active
until 60.7, and the trailing 1-second window at time 1.0 holds 4 issued
requests — exceeding half the configured rate (4 / 2 = 2) during an
active cooldown. -/
theorem c4_half_rate_counterexample :
    validTrace 4 cooldownTrace = true ∧
    (runRL 4 cooldownTrace).1.reducedUntil = some (607 / 10) ∧
    ((1 : ℚ) < 607 / 10) ∧
    windowCount (runRL 4 cooldownTrace).2 1 = 4 ∧
    (4 : Nat) / 2 < 4 := by
  have hrun : runRL 4 cooldownTrace =
      (⟨4, [1/5, 2/5, 3/5, 1], some (607/10)⟩, [0, 1/5, 2/5, 3/5, 1]) := by
    simp only [cooldownTrace, runRL, runRLFrom, rlStep, acquire, acquireEff,
      acquireClean, acquireTime, reduce_rate, RLState.init]
    norm_num [List.dropWhile]
  refine ⟨?_, by rw [hrun], by norm_num, ?_, by norm_num⟩
  · simp only [cooldownTrace, validTrace, validFrom, rlStep, acquire, acquireEff,
      acquireClean, acquireTime, reduce_rate, RLState.init]
    norm_num [List.dropWhile]
  · rw [hrun]
    norm_num [windowCount, List.countP_cons, List.countP_nil]

end MonitorJudicial
